import Mathlib

/-
Verification development for the capacity-allocation script
src/scripts/generate_allocations.py of the satellite-capacity-allocation
repository.

The script is pure in-memory data transformation apart from JSON file
loading/saving; we embed the computational core:

  * aggregate_supply_by_service_area  (supply aggregation per projection)
  * allocate_capacity                 (proportional-fair allocation engine)
  * the scenario runner inside generate_allocations (experiment matrix)
  * summarize_allocations             (per experiment/area summary)

Numbers (Python floats) are embedded as rationals, so arithmetic is exact;
Python round(x, n) is embedded as rounding x * 10^n to the nearest integer
(Python uses the binary-float value and ties-to-even; none of the concrete
inputs used below sits on an exact decimal tie, so round-half-up agrees
with Python on them).

Python dicts are embedded as follows:
  * the supply dict (built with defaultdict(int) and read with .get(k, 0))
    is an association list in insertion order, with getD as .get(k, 0);
  * the demand grouping dict demand_by_area_epoch (defaultdict(list),
    iterated in insertion order) is the list of its (key, bucket) pairs in
    first-occurrence order of the keys; each bucket holds exactly the
    matching records in input order, which is what the appending loop in
    the source produces (groupsOf below);
  * the nested summary dict is a partial mapping: the (experiment,
    service_area) key is present iff some record carries both tags,
    matching the iteration over value sets in the source.

Python sorted(..., key=..., reverse=True) is a stable descending sort; it
is embedded as stable insertion sort (insertDesc / sortDesc).
-/

/-- A demand record: the fields of the demand JSON objects that
`generate_allocations.py` reads, plus the positional passthrough fields
(lat/lon/timestamp) that it copies but never inspects. -/
structure DemandRecord where
  entity_id : String
  service_area : String
  epoch : ℕ
  demand_mbps : ℚ
  forecast_id : String
  lat : ℚ
  lon : ℚ
  timestamp : String
deriving DecidableEq

/-- An allocation record: `entity.copy()` extended with the two fields
added at lines 99-104 of the source. -/
structure AllocationRecord extends DemandRecord where
  allocated_mbps : ℚ
  satisfaction_pct : ℚ
deriving DecidableEq

/-- An allocation record after the scenario runner tags it with
`allocation["experiment"] = experiment["name"]`. -/
structure TaggedAllocation extends AllocationRecord where
  experiment : String
deriving DecidableEq

/-- A supply record (the fields the script reads). -/
structure SupplyRecord where
  satellite_id : String
  service_area : String
  projection_id : String
  supply_mbps : ℚ
deriving DecidableEq

/-- One entry of the summary dict built by `summarize_allocations`. -/
structure SummaryEntry where
  entity_count : ℕ
  total_demand_mbps : ℚ
  total_allocated_mbps : ℚ
  allocation_pct : ℚ
  avg_satisfaction_pct : ℚ
deriving DecidableEq

/-- An experiment scenario from the `experiments` table. -/
structure Scenario where
  name : String
  forecast : String
  projection : String
deriving DecidableEq

/-- The supply dict: an association list over service areas, in insertion
order (keys are distinct by construction in `addToKey`). -/
abbrev SupplyMap := List (String × ℚ)

/-- `m.get(k, 0)` on the supply dict. -/
def getD (m : SupplyMap) (k : String) : ℚ :=
  match m.find? (fun p => decide (p.1 = k)) with
  | some p => p.2
  | none => 0

/-- `service_area_supply[k] += v` on a `defaultdict(int)`: add to the
existing entry, or append a new entry (0 + v) at the end. -/
def addToKey (m : SupplyMap) (k : String) (v : ℚ) : SupplyMap :=
  if m.any (fun p => decide (p.1 = k)) then
    m.map (fun p => if p.1 = k then (p.1, p.2 + v) else p)
  else
    m ++ [(k, v)]

/-- Lines 19-37 of the source: filter supply records by projection and sum
`supply_mbps` per service area. -/
def aggregate_supply_by_service_area (supply_data : List SupplyRecord)
    (projection_id : String) : SupplyMap :=
  supply_data.foldl
    (fun m item =>
      if item.projection_id = projection_id then
        addToKey m item.service_area item.supply_mbps
      else m)
    []

/-- Python `round(x, 2)` on exact rationals: nearest multiple of 1/100. -/
def round2 (x : ℚ) : ℚ := (round (x * 100) : ℤ) / 100

/-- Python `round(x, 1)` on exact rationals: nearest multiple of 1/10. -/
def round1 (x : ℚ) : ℚ := (round (x * 10) : ℤ) / 10

/-- The grouping key `(item["service_area"], item["epoch"])`. -/
def groupKey (r : DemandRecord) : String × ℕ := (r.service_area, r.epoch)

/-- The dict `demand_by_area_epoch` as a list of (key, bucket) pairs:
keys in first-occurrence order, each bucket being the matching records in
input order — exactly what the appending loop at lines 53-57 builds. -/
def groupsOf : List DemandRecord → List ((String × ℕ) × List DemandRecord)
  | [] => []
  | r :: rs =>
    (groupKey r, r :: rs.filter (fun x => decide (groupKey x = groupKey r))) ::
      groupsOf (rs.filter (fun x => decide (¬ groupKey x = groupKey r)))
termination_by l => l.length
decreasing_by
  exact Nat.lt_succ_of_le (List.length_filter_le _ _)

/-- Lines 52-57: keep the records whose forecast_id matches, then group
them by (service_area, epoch). -/
def demandGroups (demand_data : List DemandRecord) (forecast_id : String) :
    List ((String × ℕ) × List DemandRecord) :=
  groupsOf (demand_data.filter (fun r => decide (r.forecast_id = forecast_id)))

/-- Insert a record into a descending-sorted list, after every strictly
larger element and before the first element that is not larger: the
insertion step of a stable descending sort. -/
def insertDesc (x : DemandRecord) : List DemandRecord → List DemandRecord
  | [] => [x]
  | y :: ys =>
    if x.demand_mbps < y.demand_mbps then y :: insertDesc x ys
    else x :: y :: ys

/-- `sorted(entities, key=lambda x: x["demand_mbps"], reverse=True)`:
stable sort by descending demand, embedded as insertion sort. -/
def sortDesc : List DemandRecord → List DemandRecord
  | [] => []
  | x :: xs => insertDesc x (sortDesc xs)

/-- Lines 84-94 for a single entity: the value of the local variable
`allocated` given the group totals and the current `remaining_supply`. -/
def allocEntity (total_demand total_supply remaining : ℚ)
    (e : DemandRecord) : ℚ :=
  let fair_share :=
    if 0 < total_demand then
      min e.demand_mbps (e.demand_mbps / total_demand * total_supply)
    else 0
  min fair_share remaining

/-- Lines 97-104: the allocation entry built from an entity and its
(pre-rounding) allocated amount. -/
def mkAllocation (e : DemandRecord) (allocated : ℚ) : AllocationRecord :=
  { toDemandRecord := e
    allocated_mbps := round2 allocated
    satisfaction_pct :=
      if 0 < e.demand_mbps then round1 (allocated / e.demand_mbps * 100)
      else 100 }

/-- The per-group entity loop (lines 82-106): walks the sorted entities,
threading `remaining_supply` and emitting one allocation record each. -/
def allocLoop (total_demand total_supply : ℚ) :
    ℚ → List DemandRecord → List AllocationRecord
  | _, [] => []
  | remaining, e :: es =>
    let a := allocEntity total_demand total_supply remaining e
    mkAllocation e a :: allocLoop total_demand total_supply (remaining - a) es

/-- The successive values of the loop variable `allocated` (the
pre-rounding amounts), used to state the exact part of the supply bound. -/
def allocRawList (total_demand total_supply : ℚ) :
    ℚ → List DemandRecord → List ℚ
  | _, [] => []
  | remaining, e :: es =>
    let a := allocEntity total_demand total_supply remaining e
    a :: allocRawList total_demand total_supply (remaining - a) es

/-- Lines 62-106 for one (service_area, epoch) group: look up the area's
total supply (missing key ↦ 0), total the group's demand, sort the
entities by descending demand, and run the allocation loop with
`remaining_supply` initialized to the total supply. -/
def processGroup (supply_by_service_area : SupplyMap)
    (g : (String × ℕ) × List DemandRecord) : List AllocationRecord :=
  let total_supply := getD supply_by_service_area g.1.1
  let total_demand := (g.2.map DemandRecord.demand_mbps).sum
  allocLoop total_demand total_supply total_supply (sortDesc g.2)

/-- Lines 40-108: the allocation engine. Records are appended group by
group, groups in dict insertion order. -/
def allocate_capacity (demand_data : List DemandRecord)
    (supply_by_service_area : SupplyMap) (forecast_id : String) :
    List AllocationRecord :=
  ((demandGroups demand_data forecast_id).map
    (processGroup supply_by_service_area)).flatten

/-- The experiment matrix declared at lines 133-142. -/
def experiments : List Scenario :=
  [⟨"baseline", "base_forecast", "baseline"⟩,
   ⟨"optimized", "base_forecast", "optimized"⟩,
   ⟨"peak_demand", "peak_forecast", "baseline"⟩,
   ⟨"peak_optimized", "peak_forecast", "optimized"⟩]

/-- One iteration of the scenario loop (lines 147-170, file I/O aside):
aggregate supply for the projection, allocate for the forecast, and tag
every record with the experiment name. -/
def run_experiment (supply_data : List SupplyRecord)
    (demand_data : List DemandRecord) (e : Scenario) :
    List TaggedAllocation :=
  (allocate_capacity demand_data
      (aggregate_supply_by_service_area supply_data e.projection)
      e.forecast).map
    (fun a => { toAllocationRecord := a, experiment := e.name })

/-- The in-memory computation of `generate_allocations` (lines 144-170):
the combined allocation list across the declared experiments, in
declaration order. -/
def generate_all_allocations (supply_data : List SupplyRecord)
    (demand_data : List DemandRecord) : List TaggedAllocation :=
  (experiments.map (run_experiment supply_data demand_data)).flatten

/-- Lines 198-231 for one (experiment, service_area) pair: the summary
entry computed from the records carrying both tags. `len(set(...))` is
the number of distinct values, i.e. the length of the deduplicated list. -/
def summarize_entry (allocations : List TaggedAllocation)
    (exp service_area : String) : SummaryEntry :=
  let exp_allocations :=
    allocations.filter (fun a => decide (a.experiment = exp))
  let area_allocations :=
    exp_allocations.filter (fun a => decide (a.service_area = service_area))
  let unique_entities :=
    ((area_allocations.map (fun a => a.entity_id)).dedup).length
  let total_demand := (area_allocations.map (fun a => a.demand_mbps)).sum
  let total_allocated :=
    (area_allocations.map (fun a => a.allocated_mbps)).sum
  let avg_satisfaction :=
    if 0 < area_allocations.length then
      (area_allocations.map (fun a => a.satisfaction_pct)).sum /
        (area_allocations.length : ℚ)
    else 0
  { entity_count := unique_entities
    total_demand_mbps := round2 total_demand
    total_allocated_mbps := round2 total_allocated
    allocation_pct :=
      if 0 < total_demand then round1 (total_allocated / total_demand * 100)
      else 100
    avg_satisfaction_pct := round1 avg_satisfaction }

/-- Lines 184-233: the summary as a partial mapping; the (experiment,
service_area) key exists iff some record carries both tags. -/
def summarize_allocations (allocations : List TaggedAllocation)
    (exp service_area : String) : Option SummaryEntry :=
  if allocations.any
      (fun a => decide (a.experiment = exp ∧ a.service_area = service_area))
  then some (summarize_entry allocations exp service_area)
  else none

/-! ### Rounding lemmas -/

theorem round2_zero : round2 0 = 0 := by
  simp [round2]

theorem round2_mono {x y : ℚ} (h : x ≤ y) : round2 x ≤ round2 y := by
  unfold round2
  have : round (x * 100) ≤ round (y * 100) := by
    rw [round_eq, round_eq]
    exact Int.floor_mono (by linarith)
  have hc : ((round (x * 100) : ℤ) : ℚ) ≤ ((round (y * 100) : ℤ) : ℚ) := by
    exact_mod_cast this
  gcongr

theorem round2_nonneg {x : ℚ} (h : 0 ≤ x) : 0 ≤ round2 x := by
  have := round2_mono h
  rwa [round2_zero] at this

theorem round2_le_add {x : ℚ} : round2 x ≤ x + 1 / 200 := by
  unfold round2
  have h1 : (round (x * 100) : ℚ) ≤ x * 100 + 1 / 2 := round_le_add_half (x * 100)
  have h100 : (0:ℚ) < 100 := by norm_num
  rw [div_le_iff₀ h100]
  linarith

theorem round1_hundred : round1 100 = 100 := by
  unfold round1
  rw [show ((100:ℚ) * 10) = ((1000 : ℤ) : ℚ) by norm_num, round_intCast]
  norm_num

theorem round1_zero : round1 0 = 0 := by
  simp [round1]

/-! ### Stable descending sort lemmas -/

theorem insertDesc_perm (x : DemandRecord) (l : List DemandRecord) :
    List.Perm (insertDesc x l) (x :: l) := by
  induction l with
  | nil => simp [insertDesc]
  | cons y ys ih =>
    unfold insertDesc
    by_cases h : x.demand_mbps < y.demand_mbps
    · simp only [if_pos h]
      exact ((ih.cons y).trans (List.Perm.swap x y ys))
    · simp only [if_neg h]
      exact List.Perm.refl _

theorem sortDesc_perm (l : List DemandRecord) :
    List.Perm (sortDesc l) l := by
  induction l with
  | nil => simp [sortDesc]
  | cons x xs ih =>
    unfold sortDesc
    exact (insertDesc_perm x (sortDesc xs)).trans (ih.cons x)

theorem mem_sortDesc {x : DemandRecord} {l : List DemandRecord} :
    x ∈ sortDesc l ↔ x ∈ l :=
  (sortDesc_perm l).mem_iff

theorem insertDesc_sorted (x : DemandRecord) (l : List DemandRecord)
    (h : l.Pairwise (fun a b => b.demand_mbps ≤ a.demand_mbps)) :
    (insertDesc x l).Pairwise (fun a b => b.demand_mbps ≤ a.demand_mbps) := by
  induction l with
  | nil => simp [insertDesc]
  | cons y ys ih =>
    rcases List.pairwise_cons.mp h with ⟨hy, hys⟩
    unfold insertDesc
    by_cases hc : x.demand_mbps < y.demand_mbps
    · simp only [if_pos hc]
      refine List.pairwise_cons.mpr ⟨?_, ih hys⟩
      intro z hz
      rcases List.mem_cons.mp ((insertDesc_perm x ys).mem_iff.mp hz) with hzx | hzys
      · subst hzx; exact le_of_lt hc
      · exact hy z hzys
    · simp only [if_neg hc]
      push_neg at hc
      refine List.pairwise_cons.mpr ⟨?_, h⟩
      intro z hz
      rcases List.mem_cons.mp hz with hzy | hzys
      · subst hzy; exact hc
      · exact le_trans (hy z hzys) hc

theorem sortDesc_sorted (l : List DemandRecord) :
    (sortDesc l).Pairwise (fun a b => b.demand_mbps ≤ a.demand_mbps) := by
  induction l with
  | nil => simp [sortDesc]
  | cons x xs ih =>
    unfold sortDesc
    exact insertDesc_sorted x (sortDesc xs) ih

theorem insertDesc_filter_eq {x : DemandRecord} {q : ℚ}
    (hx : x.demand_mbps = q) (l : List DemandRecord) :
    (insertDesc x l).filter (fun r => decide (r.demand_mbps = q)) =
      x :: l.filter (fun r => decide (r.demand_mbps = q)) := by
  induction l with
  | nil => simp [insertDesc, List.filter, hx]
  | cons y ys ih =>
    unfold insertDesc
    by_cases hc : x.demand_mbps < y.demand_mbps
    · have hy : ¬ (y.demand_mbps = q) := by
        intro hq
        rw [hx, hq] at hc
        exact lt_irrefl _ hc
      simp only [if_pos hc, List.filter_cons, decide_eq_true_eq]
      rw [if_neg hy, ih, if_neg hy]
    · simp only [if_neg hc, List.filter_cons, decide_eq_true_eq, if_pos hx]

theorem insertDesc_filter_ne {x : DemandRecord} {q : ℚ}
    (hx : ¬ x.demand_mbps = q) (l : List DemandRecord) :
    (insertDesc x l).filter (fun r => decide (r.demand_mbps = q)) =
      l.filter (fun r => decide (r.demand_mbps = q)) := by
  induction l with
  | nil => simp [insertDesc, List.filter, hx]
  | cons y ys ih =>
    unfold insertDesc
    by_cases hc : x.demand_mbps < y.demand_mbps
    · simp only [if_pos hc, List.filter_cons]
      rw [ih]
    · simp only [if_neg hc, List.filter_cons, decide_eq_true_eq, if_neg hx]

/-- Stability of the sort: for each demand value, the records carrying it
appear in the sorted list exactly in their input order. -/
theorem sortDesc_filter_stable (l : List DemandRecord) (q : ℚ) :
    (sortDesc l).filter (fun r => decide (r.demand_mbps = q)) =
      l.filter (fun r => decide (r.demand_mbps = q)) := by
  induction l with
  | nil => simp [sortDesc]
  | cons x xs ih =>
    unfold sortDesc
    by_cases hx : x.demand_mbps = q
    · rw [insertDesc_filter_eq hx, ih, List.filter_cons,
        if_pos (by simpa using hx)]
    · rw [insertDesc_filter_ne hx, ih, List.filter_cons,
        if_neg (by simpa using hx)]

/-! ### Allocation loop lemmas -/

theorem allocLoop_map_toDemand (D S rem : ℚ) (es : List DemandRecord) :
    (allocLoop D S rem es).map AllocationRecord.toDemandRecord = es := by
  induction es generalizing rem with
  | nil => simp [allocLoop]
  | cons e es ih => simp [allocLoop, mkAllocation, ih]

theorem allocLoop_length (D S rem : ℚ) (es : List DemandRecord) :
    (allocLoop D S rem es).length = es.length := by
  have h := congrArg List.length (allocLoop_map_toDemand D S rem es)
  simpa using h

theorem allocLoop_map_allocated (D S rem : ℚ) (es : List DemandRecord) :
    (allocLoop D S rem es).map AllocationRecord.allocated_mbps =
      (allocRawList D S rem es).map round2 := by
  induction es generalizing rem with
  | nil => simp [allocLoop, allocRawList]
  | cons e es ih => simp [allocLoop, allocRawList, mkAllocation, ih]

theorem allocEntity_le_remaining (D S rem : ℚ) (e : DemandRecord) :
    allocEntity D S rem e ≤ rem := by
  unfold allocEntity
  exact min_le_right _ _

theorem allocEntity_nonneg {D S rem : ℚ} {e : DemandRecord}
    (hS : 0 ≤ S) (hrem : 0 ≤ rem) (hd : 0 ≤ e.demand_mbps) :
    0 ≤ allocEntity D S rem e := by
  unfold allocEntity
  by_cases hD : 0 < D
  · simp only [if_pos hD]
    refine le_min (le_min hd ?_) hrem
    exact mul_nonneg (div_nonneg hd (le_of_lt hD)) hS
  · simp only [if_neg hD]
    exact le_min le_rfl hrem

theorem allocEntity_le_demand {D S rem : ℚ} {e : DemandRecord}
    (hd : 0 ≤ e.demand_mbps) :
    allocEntity D S rem e ≤ e.demand_mbps := by
  unfold allocEntity
  by_cases hD : 0 < D
  · simp only [if_pos hD]
    exact le_trans (min_le_left _ _) (min_le_left _ _)
  · simp only [if_neg hD]
    exact le_trans (min_le_left _ _) hd

theorem allocRawList_sum_le (D S : ℚ) (es : List DemandRecord) :
    ∀ rem : ℚ, 0 ≤ rem → (allocRawList D S rem es).sum ≤ rem := by
  induction es with
  | nil => intro rem hrem; simp [allocRawList, hrem]
  | cons e es ih =>
    intro rem hrem
    simp only [allocRawList, List.sum_cons]
    have ha : allocEntity D S rem e ≤ rem := allocEntity_le_remaining D S rem e
    have h1 : 0 ≤ rem - allocEntity D S rem e := by linarith
    have h2 := ih (rem - allocEntity D S rem e) h1
    linarith

theorem allocLoop_bounds {D S : ℚ} {es : List DemandRecord}
    (hS : 0 ≤ S) (hd : ∀ e ∈ es, 0 ≤ e.demand_mbps) :
    ∀ rem : ℚ, 0 ≤ rem → ∀ r ∈ allocLoop D S rem es,
      0 ≤ r.allocated_mbps ∧ r.allocated_mbps ≤ round2 r.demand_mbps ∧
        r.allocated_mbps ≤ r.demand_mbps + 1 / 200 := by
  induction es with
  | nil => intro rem _ r hr; simp [allocLoop] at hr
  | cons e es ih =>
    intro rem hrem r hr
    have hde : 0 ≤ e.demand_mbps := hd e (by simp)
    simp only [allocLoop, List.mem_cons] at hr
    rcases hr with hr | hr
    · subst hr
      have ha0 : 0 ≤ allocEntity D S rem e := allocEntity_nonneg hS hrem hde
      have had : allocEntity D S rem e ≤ e.demand_mbps :=
        allocEntity_le_demand hde
      refine ⟨?_, ?_, ?_⟩
      · simpa [mkAllocation] using round2_nonneg ha0
      · simpa [mkAllocation] using round2_mono had
      · have h1 : round2 (allocEntity D S rem e) ≤
            allocEntity D S rem e + 1 / 200 := round2_le_add
        simp only [mkAllocation]
        linarith
    · have ha : allocEntity D S rem e ≤ rem := allocEntity_le_remaining D S rem e
      exact ih (fun x hx => hd x (by simp [hx])) (rem - allocEntity D S rem e)
        (by linarith) r hr

theorem allocLoop_full_sat {D S : ℚ} {es : List DemandRecord}
    (hd : ∀ e ∈ es, 0 ≤ e.demand_mbps)
    (hdD : ∀ e ∈ es, e.demand_mbps ≤ D)
    (hDS : 0 < D → D ≤ S) :
    ∀ rem : ℚ, (es.map DemandRecord.demand_mbps).sum ≤ rem →
      ∀ r ∈ allocLoop D S rem es, r.satisfaction_pct = 100 := by
  induction es with
  | nil => intro rem _ r hr; simp [allocLoop] at hr
  | cons e es ih =>
    intro rem hrem r hr
    have hde : 0 ≤ e.demand_mbps := hd e (by simp)
    have hsum : 0 ≤ (es.map DemandRecord.demand_mbps).sum := by
      apply List.sum_nonneg
      intro x hx
      rcases List.mem_map.mp hx with ⟨y, hy, hxy⟩
      subst hxy
      exact hd y (by simp [hy])
    have hsum' : (e.demand_mbps + (es.map DemandRecord.demand_mbps).sum) ≤ rem := by
      simpa using hrem
    have ha : allocEntity D S rem e = e.demand_mbps := by
      unfold allocEntity
      by_cases hdpos : 0 < e.demand_mbps
      · have hD : 0 < D := lt_of_lt_of_le hdpos (hdD e (by simp))
        have hSD : D ≤ S := hDS hD
        have hfair : e.demand_mbps ≤ e.demand_mbps / D * S := by
          have h1 : e.demand_mbps / D * D ≤ e.demand_mbps / D * S := by
            apply mul_le_mul_of_nonneg_left hSD
            exact div_nonneg hde (le_of_lt hD)
          rwa [div_mul_cancel₀ _ (ne_of_gt hD)] at h1
        simp only [if_pos hD]
        rw [min_eq_left hfair]
        exact min_eq_left (by linarith)
      · have hd0 : e.demand_mbps = 0 := le_antisymm (not_lt.mp hdpos) hde
        by_cases hD : 0 < D
        · simp only [if_pos hD, hd0, zero_div, zero_mul, min_self]
          exact min_eq_left (by linarith)
        · simp only [if_neg hD]
          rw [hd0]
          exact min_eq_left (by linarith)
    simp only [allocLoop, List.mem_cons] at hr
    rcases hr with hr | hr
    · subst hr
      by_cases hdpos : 0 < e.demand_mbps
      · simp only [mkAllocation, if_pos hdpos, ha]
        rw [div_self (ne_of_gt hdpos), one_mul]
        exact round1_hundred
      · simp [mkAllocation, if_neg hdpos]
    · refine ih (fun x hx => hd x (by simp [hx])) (fun x hx => hdD x (by simp [hx]))
        (rem - allocEntity D S rem e) ?_ r hr
      rw [ha]
      linarith

theorem allocLoop_zero_supply {D : ℚ} {es : List DemandRecord}
    (hD : 0 < D) (hd : ∀ e ∈ es, 0 ≤ e.demand_mbps) :
    ∀ r ∈ allocLoop D 0 0 es,
      r.allocated_mbps = 0 ∧ (0 < r.demand_mbps → r.satisfaction_pct = 0) ∧
        (r.demand_mbps = 0 → r.satisfaction_pct = 100) := by
  induction es with
  | nil => intro r hr; simp [allocLoop] at hr
  | cons e es ih =>
    intro r hr
    have hde : 0 ≤ e.demand_mbps := hd e (by simp)
    have ha : allocEntity D 0 0 e = 0 := by
      unfold allocEntity
      simp only [if_pos hD, mul_zero]
      rw [min_eq_right hde, min_self]
    simp only [allocLoop, List.mem_cons] at hr
    rcases hr with hr | hr
    · subst hr
      have hdm : (mkAllocation e (allocEntity D 0 0 e)).demand_mbps =
          e.demand_mbps := rfl
      refine ⟨?_, ?_, ?_⟩
      · simp [mkAllocation, ha, round2_zero]
      · intro hdpos
        rw [hdm] at hdpos
        simp only [mkAllocation, if_pos hdpos, ha, zero_div, zero_mul]
        exact round1_zero
      · intro hd0
        rw [hdm] at hd0
        have hnot : ¬ 0 < e.demand_mbps := by rw [hd0]; exact lt_irrefl 0
        simp [mkAllocation, if_neg hnot]
    · have := ih (fun x hx => hd x (by simp [hx]))
      rw [ha] at hr
      simpa using this r (by simpa using hr)

theorem allocLoop_zero_demand {D S : ℚ} {es : List DemandRecord}
    (hD : D = 0) (hd : ∀ e ∈ es, e.demand_mbps = 0) :
    ∀ rem : ℚ, 0 ≤ rem → ∀ r ∈ allocLoop D S rem es,
      r.allocated_mbps = 0 ∧ r.satisfaction_pct = 100 := by
  induction es with
  | nil => intro rem _ r hr; simp [allocLoop] at hr
  | cons e es ih =>
    intro rem hrem r hr
    have hde : e.demand_mbps = 0 := hd e (by simp)
    have ha : allocEntity D S rem e = 0 := by
      unfold allocEntity
      have : ¬ 0 < D := by rw [hD]; exact lt_irrefl 0
      simp only [if_neg this]
      exact min_eq_left hrem
    simp only [allocLoop, List.mem_cons] at hr
    rcases hr with hr | hr
    · subst hr
      constructor
      · simp [mkAllocation, ha, round2_zero]
      · have : ¬ 0 < e.demand_mbps := by rw [hde]; exact lt_irrefl 0
        simp [mkAllocation, if_neg this]
    · exact ih (fun x hx => hd x (by simp [hx])) (rem - allocEntity D S rem e)
        (by rw [ha]; linarith) r hr

/-! ### Grouping lemmas -/

theorem processGroup_nil (s : SupplyMap) (k : String × ℕ) :
    processGroup s (k, []) = [] := rfl

theorem processGroup_map_toDemand (s : SupplyMap) (k : String × ℕ)
    (ents : List DemandRecord) :
    (processGroup s (k, ents)).map AllocationRecord.toDemandRecord =
      sortDesc ents := by
  unfold processGroup
  exact allocLoop_map_toDemand _ _ _ _

theorem mem_processGroup_toDemand {s : SupplyMap} {k : String × ℕ}
    {ents : List DemandRecord} {r : AllocationRecord}
    (hr : r ∈ processGroup s (k, ents)) : r.toDemandRecord ∈ ents := by
  have hmem : r.toDemandRecord ∈
      (processGroup s (k, ents)).map AllocationRecord.toDemandRecord :=
    List.mem_map_of_mem _ hr
  rw [processGroup_map_toDemand] at hmem
  exact mem_sortDesc.mp hmem

theorem groupsOf_mem_bucket {l : List DemandRecord}
    {g : (String × ℕ) × List DemandRecord} (hg : g ∈ groupsOf l) :
    ∀ x ∈ g.2, x ∈ l ∧ groupKey x = g.1 := by
  induction l using groupsOf.induct with
  | case1 => simp [groupsOf] at hg
  | case2 r rs ih =>
    rw [groupsOf] at hg
    rcases List.mem_cons.mp hg with hg1 | hg2
    · subst hg1
      intro x hx
      rcases List.mem_cons.mp hx with hx1 | hx2
      · subst hx1; exact ⟨by simp, rfl⟩
      · rcases List.mem_filter.mp hx2 with ⟨hxrs, hxd⟩
        exact ⟨by simp [hxrs], of_decide_eq_true hxd⟩
    · intro x hx
      rcases ih hg2 x hx with ⟨hxl, hxk⟩
      rcases List.mem_filter.mp hxl with ⟨hxrs, _⟩
      exact ⟨by simp [hxrs], hxk⟩

theorem groupsOf_flatten_perm (l : List DemandRecord) :
    List.Perm (((groupsOf l).map Prod.snd).flatten) l := by
  induction l using groupsOf.induct with
  | case1 => simp [groupsOf]
  | case2 r rs ih =>
    rw [groupsOf]
    simp only [List.map_cons, List.flatten_cons]
    have hperm : List.Perm
        (rs.filter (fun x => decide (groupKey x = groupKey r)) ++
          rs.filter (fun x => decide (¬ groupKey x = groupKey r))) rs := by
      have h := List.filter_append_perm
        (fun x => decide (groupKey x = groupKey r)) rs
      simpa [decide_not] using h
    refine List.Perm.trans (List.Perm.append_left _ ih) ?_
    rw [List.cons_append]
    exact hperm.cons r

/-- The records that `allocate_capacity` emits for one (service_area,
epoch) key are exactly the processed bucket of that key: groups do not
interfere with one another. -/
theorem groupsOf_filter_key (s : SupplyMap) (l : List DemandRecord)
    (k : String × ℕ) :
    (((groupsOf l).map (processGroup s)).flatten).filter
        (fun r => decide (groupKey r.toDemandRecord = k)) =
      processGroup s (k, l.filter (fun x => decide (groupKey x = k))) := by
  induction l using groupsOf.induct with
  | case1 => simp [groupsOf, processGroup_nil]
  | case2 r rs ih =>
    have hB0 : ∀ x ∈ r :: rs.filter (fun x => decide (groupKey x = groupKey r)),
        groupKey x = groupKey r := by
      intro x hx
      rcases List.mem_cons.mp hx with hx1 | hx2
      · subst hx1; rfl
      · exact of_decide_eq_true (List.mem_filter.mp hx2).2
    rw [groupsOf]
    simp only [List.map_cons, List.flatten_cons, List.filter_append]
    by_cases hk : k = groupKey r
    · subst hk
      have h1 : (processGroup s (groupKey r,
          r :: rs.filter (fun x => decide (groupKey x = groupKey r)))).filter
            (fun a => decide (groupKey a.toDemandRecord = groupKey r)) =
          processGroup s (groupKey r,
            r :: rs.filter (fun x => decide (groupKey x = groupKey r))) := by
        apply List.filter_eq_self.mpr
        intro a ha
        exact decide_eq_true (hB0 a.toDemandRecord (mem_processGroup_toDemand ha))
      have h2 : (rs.filter (fun x => decide (¬ groupKey x = groupKey r))).filter
          (fun x => decide (groupKey x = groupKey r)) = [] := by
        apply List.filter_eq_nil_iff.mpr
        intro a ha
        have h3 := of_decide_eq_true (List.mem_filter.mp ha).2
        simp only [decide_eq_true_eq]
        exact h3
      rw [h1, ih, h2, processGroup_nil, List.append_nil, List.filter_cons,
        if_pos (by simp)]
    · have h1 : (processGroup s (groupKey r,
          r :: rs.filter (fun x => decide (groupKey x = groupKey r)))).filter
            (fun a => decide (groupKey a.toDemandRecord = k)) = [] := by
        apply List.filter_eq_nil_iff.mpr
        intro a ha
        have hkey := hB0 a.toDemandRecord (mem_processGroup_toDemand ha)
        simp only [decide_eq_true_eq, hkey]
        intro hcontra
        exact hk hcontra.symm
      have h2 : (rs.filter (fun x => decide (¬ groupKey x = groupKey r))).filter
          (fun x => decide (groupKey x = k)) =
          rs.filter (fun x => decide (groupKey x = k)) := by
        rw [List.filter_filter]
        apply List.filter_congr
        intro x _
        by_cases hx : groupKey x = k
        · have hxr : ¬ groupKey x = groupKey r := by
            rw [hx]; exact hk
          simp [hx, hxr, hk]
        · simp [hx]
      rw [h1, ih, h2, List.nil_append, List.filter_cons,
        if_neg (by simp only [decide_eq_true_eq]; intro hcontra; exact hk hcontra.symm)]

/-- The allocation records `allocate_capacity` emits for a given
(service_area, epoch) are exactly the processed per-group bucket. -/
theorem allocate_capacity_filter_key (d : List DemandRecord) (s : SupplyMap)
    (f area : String) (ep : ℕ) :
    (allocate_capacity d s f).filter
        (fun r => decide (r.service_area = area ∧ r.epoch = ep)) =
      processGroup s ((area, ep),
        d.filter (fun r =>
          decide (r.forecast_id = f ∧ r.service_area = area ∧ r.epoch = ep))) := by
  have hpred : (allocate_capacity d s f).filter
      (fun r => decide (r.service_area = area ∧ r.epoch = ep)) =
      (allocate_capacity d s f).filter
      (fun r => decide (groupKey r.toDemandRecord = (area, ep))) := by
    apply List.filter_congr
    intro x _
    apply decide_eq_decide.mpr
    simp [groupKey, Prod.ext_iff]
  have hbucket : (d.filter (fun r => decide (r.forecast_id = f))).filter
      (fun x => decide (groupKey x = (area, ep))) =
      d.filter (fun r =>
        decide (r.forecast_id = f ∧ r.service_area = area ∧ r.epoch = ep)) := by
    rw [List.filter_filter]
    apply List.filter_congr
    intro x _
    by_cases h1 : x.forecast_id = f <;> by_cases h2 : x.service_area = area <;>
      by_cases h3 : x.epoch = ep <;> simp [groupKey, Prod.ext_iff, h1, h2, h3]
  rw [hpred]
  unfold allocate_capacity demandGroups
  rw [groupsOf_filter_key, hbucket]

/-- The demand parts of the emitted records are a permutation of the
matching input records (one output record per matching input record). -/
theorem allocate_capacity_map_perm (d : List DemandRecord) (s : SupplyMap)
    (f : String) :
    List.Perm ((allocate_capacity d s f).map AllocationRecord.toDemandRecord)
      (d.filter (fun r => decide (r.forecast_id = f))) := by
  have haux : ∀ (gs : List ((String × ℕ) × List DemandRecord)),
      List.Perm ((gs.map (fun g => sortDesc g.2)).flatten)
        ((gs.map Prod.snd).flatten) := by
    intro gs
    induction gs with
    | nil => simp
    | cons g gs ih =>
      simp only [List.map_cons, List.flatten_cons]
      exact List.Perm.append (sortDesc_perm g.2) ih
  unfold allocate_capacity demandGroups
  rw [List.map_flatten, List.map_map]
  have heq : ((groupsOf (d.filter (fun r => decide (r.forecast_id = f)))).map
      (List.map AllocationRecord.toDemandRecord ∘ processGroup s)) =
      (groupsOf (d.filter (fun r => decide (r.forecast_id = f)))).map
        (fun g => sortDesc g.2) := by
    apply List.map_congr_left
    intro g _
    exact processGroup_map_toDemand s g.1 g.2
  rw [heq]
  exact (haux _).trans (groupsOf_flatten_perm _)

theorem allocate_capacity_length (d : List DemandRecord) (s : SupplyMap)
    (f : String) :
    (allocate_capacity d s f).length =
      (d.filter (fun r => decide (r.forecast_id = f))).length := by
  have h := (allocate_capacity_map_perm d s f).length_eq
  simpa using h

theorem getD_nonneg {s : SupplyMap} (hs : ∀ p ∈ s, 0 ≤ p.2) (k : String) :
    0 ≤ getD s k := by
  unfold getD
  cases hfind : s.find? (fun p => decide (p.1 = k)) with
  | none => exact le_refl 0
  | some p => exact hs p (List.mem_of_find?_eq_some hfind)

theorem mem_allocate_capacity_group {d : List DemandRecord} {s : SupplyMap}
    {f : String} {r : AllocationRecord}
    (hr : r ∈ allocate_capacity d s f) :
    ∃ g ∈ groupsOf (d.filter (fun x => decide (x.forecast_id = f))),
      r ∈ processGroup s g := by
  unfold allocate_capacity demandGroups at hr
  rcases List.mem_flatten.mp hr with ⟨bl, hbl, hrbl⟩
  rcases List.mem_map.mp hbl with ⟨g, hg, hgbl⟩
  exact ⟨g, hg, by rw [hgbl]; exact hrbl⟩

theorem sortDesc_map_sum (l : List DemandRecord) :
    ((sortDesc l).map DemandRecord.demand_mbps).sum =
      (l.map DemandRecord.demand_mbps).sum :=
  ((sortDesc_perm l).map DemandRecord.demand_mbps).sum_eq

/-! ### Claims -/

/-- A demand record asking for 0.006 Mbps (below half of the 0.01 rounding
step), used to refute the stored-value upper bound of C1. -/
def tinyDemandRec : DemandRecord := ⟨"e1", "A", 0, 3/500, "f", 0, 0, "t0"⟩

/-- Claim C1 (counterexample): with a single demand of 0.006 Mbps and ample
supply, the entity is fully served (raw allocation 0.006), but the stored
allocated_mbps is round(0.006, 2) = 0.01 > 0.006 = demand_mbps, so the
claimed bound allocated_mbps ≤ demand_mbps fails for the stored value. -/
theorem claim_C1_counterexample :
    (allocate_capacity [tinyDemandRec] [("A", 1)] "f").map
        (fun r => (r.demand_mbps, r.allocated_mbps)) = [(3/500, 1/100)] ∧
      ¬ ((1 : ℚ)/100 ≤ 3/500) := by
  constructor
  · norm_num [allocate_capacity, demandGroups, groupsOf, processGroup,
      allocLoop, allocEntity, mkAllocation, getD, sortDesc, insertDesc,
      round2, round1, groupKey, tinyDemandRec, min_def, round_eq]
  · norm_num

/-- Claim C1 (amended): for non-negative demands and supply, every record
of `allocate_capacity` satisfies 0 ≤ allocated_mbps, and the upper bound
holds against the demand rounded to 2 decimals: allocated_mbps ≤
round2 demand_mbps ≤ demand_mbps + 0.005. (The pre-rounding amount is
bounded by demand_mbps exactly; rounding can push the stored value at most
half a hundredth above it.) -/
theorem claim_C1_allocation_bounds (d : List DemandRecord) (s : SupplyMap)
    (f : String) (hd : ∀ x ∈ d, 0 ≤ x.demand_mbps)
    (hs : ∀ p ∈ s, 0 ≤ p.2) :
    ∀ r ∈ allocate_capacity d s f,
      0 ≤ r.allocated_mbps ∧ r.allocated_mbps ≤ round2 r.demand_mbps ∧
        r.allocated_mbps ≤ r.demand_mbps + 1/200 := by
  intro r hr
  rcases mem_allocate_capacity_group hr with ⟨g, hg, hrg⟩
  have hbucket : ∀ x ∈ g.2, 0 ≤ x.demand_mbps := by
    intro x hx
    exact hd x (List.mem_of_mem_filter ((groupsOf_mem_bucket hg x hx).1))
  have hsorted : ∀ x ∈ sortDesc g.2, 0 ≤ x.demand_mbps := fun x hx =>
    hbucket x (mem_sortDesc.mp hx)
  have hS : 0 ≤ getD s g.1.1 := getD_nonneg hs _
  simp only [processGroup] at hrg
  exact allocLoop_bounds hS hsorted _ hS r hrg

/-- Input demand used to witness the amended C1 bound. -/
def wRecC1 : DemandRecord := ⟨"e1", "A", 0, 80, "f", 0, 0, "t0"⟩

/-- Output record produced for `wRecC1` under 60 Mbps of supply. -/
def wOutC1 : AllocationRecord := ⟨wRecC1, 60, 75⟩

/-- Claim C1 (witness): the amended bound evaluated on a concrete run. -/
theorem claim_C1_witness :
    0 ≤ wOutC1.allocated_mbps ∧
      wOutC1.allocated_mbps ≤ round2 wOutC1.demand_mbps ∧
        wOutC1.allocated_mbps ≤ wOutC1.demand_mbps + 1/200 := by
  have hmem : wOutC1 ∈ allocate_capacity [wRecC1] [("A", 60)] "f" := by
    have h : allocate_capacity [wRecC1] [("A", 60)] "f" = [wOutC1] := by
      norm_num [allocate_capacity, demandGroups, groupsOf, processGroup,
        allocLoop, allocEntity, mkAllocation, getD, sortDesc, insertDesc,
        round2, round1, groupKey, wRecC1, wOutC1, min_def, round_eq]
    rw [h]
    exact List.mem_singleton_self _
  exact claim_C1_allocation_bounds [wRecC1] [("A", 60)] "f"
    (by intro x hx
        rw [List.mem_singleton.mp hx]
        norm_num [wRecC1])
    (by intro p hp
        rw [List.mem_singleton.mp hp]
        norm_num)
    wOutC1 hmem

theorem allocRawList_length (D S : ℚ) (es : List DemandRecord) :
    ∀ rem : ℚ, (allocRawList D S rem es).length = es.length := by
  induction es with
  | nil => intro rem; simp [allocRawList]
  | cons e es ih => intro rem; simp [allocRawList, ih]

theorem sum_map_round2_le (l : List ℚ) :
    (l.map round2).sum ≤ l.sum + (l.length : ℚ) * (1/200) := by
  induction l with
  | nil => simp
  | cons x xs ih =>
    simp only [List.map_cons, List.sum_cons, List.length_cons]
    have hx : round2 x ≤ x + 1/200 := round2_le_add
    push_cast
    linarith

/-- Claim C2: for every (service_area, epoch) group, the pre-rounding
allocations (the loop's `allocated` values) sum to at most the area's
total supply — the `remaining_supply` clamp makes this exact — and the
stored (2-decimal-rounded) allocations sum to at most total supply plus
the rounding slack of at most 0.005 per record. -/
theorem claim_C2_group_supply_bound (d : List DemandRecord) (s : SupplyMap)
    (f area : String) (ep : ℕ)
    (_hd : ∀ x ∈ d, 0 ≤ x.demand_mbps) (hs : ∀ p ∈ s, 0 ≤ p.2) :
    (allocRawList
        ((d.filter (fun r => decide (r.forecast_id = f ∧ r.service_area = area ∧
            r.epoch = ep))).map DemandRecord.demand_mbps).sum
        (getD s area) (getD s area)
        (sortDesc (d.filter (fun r => decide (r.forecast_id = f ∧
            r.service_area = area ∧ r.epoch = ep))))).sum ≤ getD s area ∧
    ((((allocate_capacity d s f).filter
        (fun r => decide (r.service_area = area ∧ r.epoch = ep))).map
        AllocationRecord.allocated_mbps).sum ≤
      getD s area + ((((allocate_capacity d s f).filter
        (fun r => decide (r.service_area = area ∧ r.epoch = ep))).length : ℚ) *
          (1/200))) := by
  have hS : 0 ≤ getD s area := getD_nonneg hs area
  constructor
  · exact allocRawList_sum_le _ _ _ (getD s area) hS
  · rw [allocate_capacity_filter_key]
    simp only [processGroup]
    rw [allocLoop_map_allocated, allocLoop_length]
    have h1 := sum_map_round2_le (allocRawList
      ((d.filter (fun r => decide (r.forecast_id = f ∧ r.service_area = area ∧
          r.epoch = ep))).map DemandRecord.demand_mbps).sum
      (getD s area) (getD s area)
      (sortDesc (d.filter (fun r => decide (r.forecast_id = f ∧
          r.service_area = area ∧ r.epoch = ep)))))
    have h2 := allocRawList_sum_le
      ((d.filter (fun r => decide (r.forecast_id = f ∧ r.service_area = area ∧
          r.epoch = ep))).map DemandRecord.demand_mbps).sum
      (getD s area)
      (sortDesc (d.filter (fun r => decide (r.forecast_id = f ∧
          r.service_area = area ∧ r.epoch = ep))))
      (getD s area) hS
    have h3 := allocRawList_length
      ((d.filter (fun r => decide (r.forecast_id = f ∧ r.service_area = area ∧
          r.epoch = ep))).map DemandRecord.demand_mbps).sum
      (getD s area)
      (sortDesc (d.filter (fun r => decide (r.forecast_id = f ∧
          r.service_area = area ∧ r.epoch = ep))))
      (getD s area)
    rw [h3] at h1
    linarith

/-- First demand entity of the worked example from the spec (80 Mbps). -/
def wDemE1 : DemandRecord := ⟨"e1", "A1", 0, 80, "f1", 0, 0, "t0"⟩

/-- Second demand entity of the worked example from the spec (20 Mbps). -/
def wDemE2 : DemandRecord := ⟨"e2", "A1", 0, 20, "f1", 0, 0, "t0"⟩

/-- Claim C2 (witness): the supply bound on the spec's worked example
(demands 80 and 20 against 60 Mbps of supply). -/
theorem claim_C2_witness :
    (allocRawList
        ((([wDemE1, wDemE2]).filter (fun r => decide (r.forecast_id = "f1" ∧
            r.service_area = "A1" ∧ r.epoch = 0))).map
            DemandRecord.demand_mbps).sum
        (getD [("A1", 60)] "A1") (getD [("A1", 60)] "A1")
        (sortDesc (([wDemE1, wDemE2]).filter (fun r =>
            decide (r.forecast_id = "f1" ∧ r.service_area = "A1" ∧
              r.epoch = 0))))).sum ≤ getD [("A1", 60)] "A1" ∧
    ((((allocate_capacity [wDemE1, wDemE2] [("A1", 60)] "f1").filter
        (fun r => decide (r.service_area = "A1" ∧ r.epoch = 0))).map
        AllocationRecord.allocated_mbps).sum ≤
      getD [("A1", 60)] "A1" +
        ((((allocate_capacity [wDemE1, wDemE2] [("A1", 60)] "f1").filter
          (fun r => decide (r.service_area = "A1" ∧ r.epoch = 0))).length : ℚ) *
            (1/200))) :=
  claim_C2_group_supply_bound [wDemE1, wDemE2] [("A1", 60)] "f1" "A1" 0
    (by intro x hx
        rcases List.mem_cons.mp hx with h1 | h2
        · rw [h1]; norm_num [wDemE1]
        · rw [List.mem_singleton.mp h2]; norm_num [wDemE2])
    (by intro p hp
        rw [List.mem_singleton.mp hp]
        norm_num)

/-- A 5 Mbps demand record in area "A", used in the zero-supply instance. -/
def zsRec5 : DemandRecord := ⟨"e1", "A", 0, 5, "f", 0, 0, "t0"⟩

/-- A 0 Mbps demand record in area "A", used in the zero-supply instance. -/
def zsRec0 : DemandRecord := ⟨"e2", "A", 0, 0, "f", 0, 0, "t0"⟩

/-- Claim C3 (counterexample): with total_supply = 0 and total_demand =
5 > 0, the zero-demand entity in the group receives satisfaction_pct =
100, not 0 — the demand-0 branch of the satisfaction formula wins over the
zero-supply rule, refuting "every entity ... satisfaction_pct = 0". -/
theorem claim_C3_counterexample :
    getD [] "A" = 0 ∧
    (0 : ℚ) < ((([zsRec5, zsRec0]).filter (fun r =>
        decide (r.forecast_id = "f" ∧ r.service_area = "A" ∧
          r.epoch = 0))).map DemandRecord.demand_mbps).sum ∧
    (allocate_capacity [zsRec5, zsRec0] [] "f").map
        (fun r => (r.allocated_mbps, r.satisfaction_pct)) =
      [(0, 0), (0, 100)] ∧
    (100 : ℚ) ≠ 0 := by
  refine ⟨rfl, ?_, ?_, by norm_num⟩
  · norm_num [zsRec5, zsRec0]
  · norm_num [allocate_capacity, demandGroups, groupsOf, processGroup,
      allocLoop, allocEntity, mkAllocation, getD, sortDesc, insertDesc,
      round2, round1, groupKey, zsRec5, zsRec0, min_def, round_eq]

/-- Claim C3 (amended): in a group with total_supply = 0 and total_demand
> 0 (non-negative demands), every record gets allocated_mbps = 0; records
with positive demand get satisfaction_pct = 0, while records with zero
demand get satisfaction_pct = 100 by the demand-0 convention. -/
theorem claim_C3_zero_supply (d : List DemandRecord) (s : SupplyMap)
    (f area : String) (ep : ℕ)
    (hd : ∀ x ∈ d, 0 ≤ x.demand_mbps)
    (hzero : getD s area = 0)
    (hpos : 0 < ((d.filter (fun r => decide (r.forecast_id = f ∧
        r.service_area = area ∧ r.epoch = ep))).map
        DemandRecord.demand_mbps).sum) :
    ∀ r ∈ (allocate_capacity d s f).filter
        (fun r => decide (r.service_area = area ∧ r.epoch = ep)),
      r.allocated_mbps = 0 ∧ (0 < r.demand_mbps → r.satisfaction_pct = 0) ∧
        (r.demand_mbps = 0 → r.satisfaction_pct = 100) := by
  intro r hr
  rw [allocate_capacity_filter_key] at hr
  simp only [processGroup] at hr
  rw [hzero] at hr
  refine allocLoop_zero_supply hpos ?_ r hr
  intro e he
  exact hd e (List.mem_of_mem_filter (mem_sortDesc.mp he))

/-- The allocation record produced for `zsRec5` under zero supply. -/
def zsOut5 : AllocationRecord := ⟨zsRec5, 0, 0⟩

/-- Claim C3 (witness): the amended zero-supply behaviour on the concrete
5 Mbps record. -/
theorem claim_C3_witness :
    zsOut5.allocated_mbps = 0 ∧ zsOut5.satisfaction_pct = 0 := by
  have hmem : zsOut5 ∈ (allocate_capacity [zsRec5, zsRec0] [] "f").filter
      (fun r => decide (r.service_area = "A" ∧ r.epoch = 0)) := by
    have h : (allocate_capacity [zsRec5, zsRec0] [] "f").filter
        (fun r => decide (r.service_area = "A" ∧ r.epoch = 0)) =
        [zsOut5, ⟨zsRec0, 0, 100⟩] := by
      norm_num [allocate_capacity, demandGroups, groupsOf, processGroup,
        allocLoop, allocEntity, mkAllocation, getD, sortDesc, insertDesc,
        round2, round1, groupKey, zsRec5, zsRec0, zsOut5, min_def, round_eq]
    rw [h]
    simp
  have h := claim_C3_zero_supply [zsRec5, zsRec0] [] "f" "A" 0
    (by intro x hx
        rcases List.mem_cons.mp hx with h1 | h2
        · rw [h1]; norm_num [zsRec5]
        · rw [List.mem_singleton.mp h2]; norm_num [zsRec0])
    rfl
    (by norm_num [zsRec5, zsRec0])
    zsOut5 hmem
  exact ⟨h.1, h.2.1 (by norm_num [zsOut5, zsRec5])⟩

/-- Claim C4: in a group whose total demand is 0 (all demands 0, given the
data model's non-negative demands), every record gets allocated_mbps = 0
and satisfaction_pct = 100. No division is evaluated: both divisions in
the source are guarded (`if total_demand > 0`, `if entity demand > 0`),
which the embedded conditionals mirror, so no division error can occur. -/
theorem claim_C4_zero_demand (d : List DemandRecord) (s : SupplyMap)
    (f area : String) (ep : ℕ)
    (hd : ∀ x ∈ d, 0 ≤ x.demand_mbps) (hs : ∀ p ∈ s, 0 ≤ p.2)
    (hzero : ((d.filter (fun r => decide (r.forecast_id = f ∧
        r.service_area = area ∧ r.epoch = ep))).map
        DemandRecord.demand_mbps).sum = 0) :
    ∀ r ∈ (allocate_capacity d s f).filter
        (fun r => decide (r.service_area = area ∧ r.epoch = ep)),
      r.allocated_mbps = 0 ∧ r.satisfaction_pct = 100 := by
  intro r hr
  have hnn : ∀ x ∈ (d.filter (fun r => decide (r.forecast_id = f ∧
      r.service_area = area ∧ r.epoch = ep))).map DemandRecord.demand_mbps,
      0 ≤ x := by
    intro x hx
    rcases List.mem_map.mp hx with ⟨y, hy, hxy⟩
    rw [← hxy]
    exact hd y (List.mem_of_mem_filter hy)
  have hall0 : ∀ x ∈ d.filter (fun r => decide (r.forecast_id = f ∧
      r.service_area = area ∧ r.epoch = ep)), x.demand_mbps = 0 := by
    intro x hx
    have hle := List.single_le_sum hnn x.demand_mbps
      (List.mem_map_of_mem DemandRecord.demand_mbps hx)
    rw [hzero] at hle
    exact le_antisymm hle (hd x (List.mem_of_mem_filter hx))
  rw [allocate_capacity_filter_key] at hr
  simp only [processGroup] at hr
  refine allocLoop_zero_demand hzero ?_ (getD s area) (getD_nonneg hs area) r hr
  intro e he
  exact hall0 e (mem_sortDesc.mp he)

/-- A zero-demand record used to witness claim C4. -/
def zdRec : DemandRecord := ⟨"e1", "A", 0, 0, "f", 0, 0, "t0"⟩

/-- The allocation record produced for `zdRec`. -/
def zdOut : AllocationRecord := ⟨zdRec, 0, 100⟩

/-- Claim C4 (witness): the zero-demand behaviour on a concrete record. -/
theorem claim_C4_witness :
    zdOut.allocated_mbps = 0 ∧ zdOut.satisfaction_pct = 100 := by
  have hmem : zdOut ∈ (allocate_capacity [zdRec] [("A", 5)] "f").filter
      (fun r => decide (r.service_area = "A" ∧ r.epoch = 0)) := by
    have h : (allocate_capacity [zdRec] [("A", 5)] "f").filter
        (fun r => decide (r.service_area = "A" ∧ r.epoch = 0)) = [zdOut] := by
      norm_num [allocate_capacity, demandGroups, groupsOf, processGroup,
        allocLoop, allocEntity, mkAllocation, getD, sortDesc, insertDesc,
        round2, round1, groupKey, zdRec, zdOut, min_def, round_eq]
    rw [h]
    exact List.mem_singleton_self _
  exact claim_C4_zero_demand [zdRec] [("A", 5)] "f" "A" 0
    (by intro x hx
        rw [List.mem_singleton.mp hx]
        norm_num [zdRec])
    (by intro p hp
        rw [List.mem_singleton.mp hp]
        norm_num)
    (by norm_num [zdRec])
    zdOut hmem

/-- Claim C5: in a group with non-negative demands whose total supply is
at least its total demand, every emitted record has satisfaction_pct =
100 (exactly: each entity receives precisely its demand, and
round(100.0, 1) = 100). -/
theorem claim_C5_full_satisfaction (d : List DemandRecord) (s : SupplyMap)
    (f area : String) (ep : ℕ)
    (hd : ∀ x ∈ d, 0 ≤ x.demand_mbps)
    (hsup : ((d.filter (fun r => decide (r.forecast_id = f ∧
        r.service_area = area ∧ r.epoch = ep))).map
        DemandRecord.demand_mbps).sum ≤ getD s area) :
    ∀ r ∈ (allocate_capacity d s f).filter
        (fun r => decide (r.service_area = area ∧ r.epoch = ep)),
      r.satisfaction_pct = 100 := by
  intro r hr
  have hnn : ∀ x ∈ (d.filter (fun r => decide (r.forecast_id = f ∧
      r.service_area = area ∧ r.epoch = ep))).map DemandRecord.demand_mbps,
      0 ≤ x := by
    intro x hx
    rcases List.mem_map.mp hx with ⟨y, hy, hxy⟩
    rw [← hxy]
    exact hd y (List.mem_of_mem_filter hy)
  rw [allocate_capacity_filter_key] at hr
  simp only [processGroup] at hr
  refine allocLoop_full_sat ?_ ?_ (fun _ => hsup) (getD s area) ?_ r hr
  · intro e he
    exact hd e (List.mem_of_mem_filter (mem_sortDesc.mp he))
  · intro e he
    exact List.single_le_sum hnn e.demand_mbps
      (List.mem_map_of_mem DemandRecord.demand_mbps (mem_sortDesc.mp he))
  · rw [sortDesc_map_sum]
    exact hsup

/-- A 10 Mbps record used to witness claim C5. -/
def fsRecA : DemandRecord := ⟨"e1", "A", 0, 10, "f", 0, 0, "t0"⟩

/-- The record produced for `fsRecA` under ample (15 Mbps) supply. -/
def fsOutA : AllocationRecord := ⟨fsRecA, 10, 100⟩

/-- Claim C5 (witness): full satisfaction on a concrete run with supply
15 ≥ demand 10. -/
theorem claim_C5_witness : fsOutA.satisfaction_pct = 100 := by
  have hmem : fsOutA ∈ (allocate_capacity [fsRecA] [("A", 15)] "f").filter
      (fun r => decide (r.service_area = "A" ∧ r.epoch = 0)) := by
    have h : (allocate_capacity [fsRecA] [("A", 15)] "f").filter
        (fun r => decide (r.service_area = "A" ∧ r.epoch = 0)) = [fsOutA] := by
      norm_num [allocate_capacity, demandGroups, groupsOf, processGroup,
        allocLoop, allocEntity, mkAllocation, getD, sortDesc, insertDesc,
        round2, round1, groupKey, fsRecA, fsOutA, min_def, round_eq]
    rw [h]
    exact List.mem_singleton_self _
  exact claim_C5_full_satisfaction [fsRecA] [("A", 15)] "f" "A" 0
    (by intro x hx
        rw [List.mem_singleton.mp hx]
        norm_num [fsRecA])
    (by norm_num [fsRecA, getD])
    fsOutA hmem

/-- Claim C6 (counterexample): on empty input collections the pipeline
does not fail: `generate_all_allocations` (the scenario loop of
`generate_allocations`) silently returns empty allocation output for
every experiment, and `allocate_capacity` on an empty demand collection
silently returns the empty list. Neither function has any error path:
both are total and no emptiness check exists in the source. -/
theorem claim_C6_counterexample :
    generate_all_allocations [] [] = [] ∧
      allocate_capacity [] [] "base_forecast" = [] := by
  constructor
  · norm_num [generate_all_allocations, experiments, run_experiment,
      allocate_capacity, demandGroups, groupsOf,
      aggregate_supply_by_service_area]
  · norm_num [allocate_capacity, demandGroups, groupsOf]

/-- Claim C6 (amended): an empty demand collection, or one with no record
matching the requested forecast_id, is not reported as an error:
`allocate_capacity` silently returns the empty list (only an absent input
file faults, through `open` inside `load_json_file`). -/
theorem claim_C6_no_match_empty (d : List DemandRecord) (s : SupplyMap)
    (f : String) (h : ∀ r ∈ d, ¬ r.forecast_id = f) :
    allocate_capacity d s f = [] := by
  unfold allocate_capacity demandGroups
  rw [List.filter_eq_nil_iff.mpr (by intro a ha; simpa using h a ha)]
  norm_num [groupsOf]

/-- A base_forecast record used to witness claim C6. -/
def c6Rec : DemandRecord := ⟨"e1", "A", 0, 7, "base_forecast", 0, 0, "t0"⟩

/-- Claim C6 (witness): no record matches "peak_forecast", and the engine
silently returns the empty list. -/
theorem claim_C6_witness :
    allocate_capacity [c6Rec] [("A", 5)] "peak_forecast" = [] :=
  claim_C6_no_match_empty [c6Rec] [("A", 5)] "peak_forecast"
    (by intro r hr
        rw [List.mem_singleton.mp hr]
        simp [c6Rec])

theorem aggregate_no_match (supply_data : List SupplyRecord) (pid : String)
    (hnone : ∀ r ∈ supply_data, ¬ r.projection_id = pid) :
    aggregate_supply_by_service_area supply_data pid = [] := by
  unfold aggregate_supply_by_service_area
  induction supply_data with
  | nil => rfl
  | cons r rest ih =>
    rw [List.foldl_cons, if_neg (hnone r (by simp))]
    exact ih (fun x hx => hnone x (by simp [hx]))

theorem getD_missing {s : SupplyMap} {area : String}
    (hmiss : ∀ p ∈ s, ¬ p.1 = area) : getD s area = 0 := by
  unfold getD
  rw [List.find?_eq_none.mpr (by intro p hp; simpa using hmiss p hp)]

theorem getD_cons_zero {s : SupplyMap} {area : String}
    (hmiss : ∀ p ∈ s, ¬ p.1 = area) (k : String) :
    getD ((area, 0) :: s) k = getD s k := by
  unfold getD
  by_cases hk : area = k
  · subst hk
    rw [List.find?_cons_of_pos _ (by simp),
      List.find?_eq_none.mpr (by intro p hp; simpa using hmiss p hp)]
  · rw [List.find?_cons_of_neg _ (by simpa using hk)]

theorem allocate_capacity_getD_congr (d : List DemandRecord)
    (s s' : SupplyMap) (f : String) (h : ∀ k, getD s k = getD s' k) :
    allocate_capacity d s f = allocate_capacity d s' f := by
  unfold allocate_capacity
  congr 1
  apply List.map_congr_left
  intro g _
  unfold processGroup
  rw [h g.1.1]

/-- Claim C7: a mismatched projection_id yields an empty supply mapping;
a service area absent from the supply mapping is looked up as 0 and is
not an error: extending the mapping with an explicit 0 entry for the
missing area leaves `allocate_capacity` unchanged, and the engine still
emits one record per matching demand record. -/
theorem claim_C7_missing_area (supply_data : List SupplyRecord)
    (pid : String) (d : List DemandRecord) (s : SupplyMap) (f area : String)
    (hnone : ∀ r ∈ supply_data, ¬ r.projection_id = pid)
    (hmiss : ∀ p ∈ s, ¬ p.1 = area) :
    aggregate_supply_by_service_area supply_data pid = [] ∧
    getD s area = 0 ∧
    allocate_capacity d s f = allocate_capacity d ((area, 0) :: s) f ∧
    (allocate_capacity d s f).length =
      (d.filter (fun r => decide (r.forecast_id = f))).length := by
  refine ⟨aggregate_no_match supply_data pid hnone, getD_missing hmiss, ?_, ?_⟩
  · exact allocate_capacity_getD_congr d s _ f
      (fun k => (getD_cons_zero hmiss k).symm)
  · exact allocate_capacity_length d s f

/-- Supply record for the "optimized" projection, used to witness C7. -/
def c7Supply : SupplyRecord := ⟨"sat1", "B", "optimized", 40⟩

/-- Demand record in area "A" (absent from supply), used to witness C7. -/
def c7Dem : DemandRecord := ⟨"e1", "A", 0, 9, "f", 0, 0, "t0"⟩

/-- Claim C7 (witness): the missing-key-as-zero behaviour on concrete
data — no "baseline" supply record exists, area "A" is missing from the
map [("B", 40)], and the engine still emits one record. -/
theorem claim_C7_witness :
    aggregate_supply_by_service_area [c7Supply] "baseline" = [] ∧
    getD [("B", 40)] "A" = 0 ∧
    allocate_capacity [c7Dem] [("B", 40)] "f" =
      allocate_capacity [c7Dem] [("A", 0), ("B", 40)] "f" ∧
    (allocate_capacity [c7Dem] [("B", 40)] "f").length =
      (([c7Dem]).filter (fun r => decide (r.forecast_id = "f"))).length :=
  claim_C7_missing_area [c7Supply] "baseline" [c7Dem] [("B", 40)] "f" "A"
    (by intro r hr
        rw [List.mem_singleton.mp hr]
        simp [c7Supply])
    (by intro p hp
        rw [List.mem_singleton.mp hp]
        simp)

theorem map_toDemand_filter_demand (l : List AllocationRecord) (q : ℚ) :
    (l.filter (fun r => decide (r.demand_mbps = q))).map
        AllocationRecord.toDemandRecord =
      (l.map AllocationRecord.toDemandRecord).filter
        (fun r => decide (r.demand_mbps = q)) := by
  induction l with
  | nil => rfl
  | cons x xs ih =>
    simp only [List.map_cons, List.filter_cons]
    by_cases hx : x.toDemandRecord.demand_mbps = q
    · rw [if_pos (decide_eq_true hx), if_pos (decide_eq_true hx),
        List.map_cons, ih]
    · rw [if_neg (by simpa using hx), if_neg (by simpa using hx), ih]

/-- Claim C8: within each (service_area, epoch) group the emitted records
are in descending demand_mbps order, and for each fixed demand value the
tied records appear exactly in their input order (stable sort), with all
demand fields preserved. -/
theorem claim_C8_group_order (d : List DemandRecord) (s : SupplyMap)
    (f area : String) (ep : ℕ) :
    ((allocate_capacity d s f).filter
        (fun r => decide (r.service_area = area ∧ r.epoch = ep))).Pairwise
        (fun a b => b.demand_mbps ≤ a.demand_mbps) ∧
    ∀ q : ℚ,
      (((allocate_capacity d s f).filter
          (fun r => decide (r.service_area = area ∧ r.epoch = ep))).filter
          (fun r => decide (r.demand_mbps = q))).map
          AllocationRecord.toDemandRecord =
        d.filter (fun r => decide (r.forecast_id = f ∧ r.service_area = area ∧
          r.epoch = ep ∧ r.demand_mbps = q)) := by
  have hmap : ((allocate_capacity d s f).filter
      (fun r => decide (r.service_area = area ∧ r.epoch = ep))).map
      AllocationRecord.toDemandRecord =
      sortDesc (d.filter (fun r => decide (r.forecast_id = f ∧
        r.service_area = area ∧ r.epoch = ep))) := by
    rw [allocate_capacity_filter_key]
    exact processGroup_map_toDemand s (area, ep) _
  constructor
  · have hp : (((allocate_capacity d s f).filter
        (fun r => decide (r.service_area = area ∧ r.epoch = ep))).map
        AllocationRecord.toDemandRecord).Pairwise
        (fun a b => b.demand_mbps ≤ a.demand_mbps) := by
      rw [hmap]
      exact sortDesc_sorted _
    exact List.pairwise_map.mp hp
  · intro q
    rw [map_toDemand_filter_demand, hmap, sortDesc_filter_stable,
      List.filter_filter]
    apply List.filter_congr
    intro x _
    by_cases h1 : x.forecast_id = f <;> by_cases h2 : x.service_area = area <;>
      by_cases h3 : x.epoch = ep <;> by_cases h4 : x.demand_mbps = q <;>
        simp [h1, h2, h3, h4]

/-- Claim C9: for every (experiment, service_area) key present in the
summary, entity_count is the number of distinct entity_id values among
that key's records across all epochs (the cardinality of the set of
entity ids), not the record count. -/
theorem claim_C9_entity_count (al : List TaggedAllocation) (e area : String)
    (entry : SummaryEntry)
    (h : summarize_allocations al e area = some entry) :
    entry.entity_count =
      ((al.filter (fun a => decide (a.experiment = e ∧
        a.service_area = area))).map (fun a => a.entity_id)).toFinset.card := by
  unfold summarize_allocations at h
  split at h
  · have he : entry = summarize_entry al e area := (Option.some.inj h).symm
    subst he
    simp only [summarize_entry]
    rw [List.card_toFinset]
    have hlist : (al.filter (fun a => decide (a.experiment = e))).filter
        (fun a => decide (a.service_area = area)) =
        al.filter (fun a => decide (a.experiment = e ∧
          a.service_area = area)) := by
      rw [List.filter_filter]
      apply List.filter_congr
      intro x _
      by_cases h1 : x.experiment = e <;> by_cases h2 : x.service_area = area <;>
        simp [h1, h2]
    rw [hlist]
  · exact absurd h (by simp)

/-- Tagged record: entity "x", epoch 0, experiment "baseline". -/
def wTag1 : TaggedAllocation := ⟨⟨⟨"x", "A1", 0, 10, "f", 0, 0, "t0"⟩, 10, 100⟩, "baseline"⟩

/-- Tagged record: entity "x" again at epoch 1, experiment "baseline". -/
def wTag2 : TaggedAllocation := ⟨⟨⟨"x", "A1", 1, 12, "f", 0, 0, "t1"⟩, 12, 100⟩, "baseline"⟩

/-- Tagged record: entity "y", epoch 0, experiment "baseline". -/
def wTag3 : TaggedAllocation := ⟨⟨⟨"y", "A1", 0, 8, "f", 0, 0, "t0"⟩, 8, 100⟩, "baseline"⟩

/-- Claim C9 (witness): the distinct-entity invariant on a concrete
summary (entity "x" appears at two epochs; the count is of distinct ids). -/
theorem claim_C9_witness :
    (summarize_entry [wTag1, wTag2, wTag3] "baseline" "A1").entity_count =
      ((([wTag1, wTag2, wTag3]).filter (fun a =>
        decide (a.experiment = "baseline" ∧ a.service_area = "A1"))).map
        (fun a => a.entity_id)).toFinset.card :=
  claim_C9_entity_count [wTag1, wTag2, wTag3] "baseline" "A1"
    (summarize_entry [wTag1, wTag2, wTag3] "baseline" "A1")
    (by norm_num [summarize_allocations, wTag1, wTag2, wTag3])

/-- Claim C10: the demand parts of the records `allocate_capacity` emits
are a permutation of exactly the input records whose forecast_id matches
(one output record per matching input record, none for any other
forecast), and an empty demand list yields the empty list without error. -/
theorem claim_C10_record_correspondence (d : List DemandRecord)
    (s : SupplyMap) (f : String) :
    List.Perm ((allocate_capacity d s f).map AllocationRecord.toDemandRecord)
      (d.filter (fun r => decide (r.forecast_id = f))) ∧
    allocate_capacity [] s f = [] := by
  constructor
  · exact allocate_capacity_map_perm d s f
  · norm_num [allocate_capacity, demandGroups, groupsOf]
